import Mathlib

/-!
Verification development for the Object Register / Object Factory subsystem
(`objectregister.hpp` and its implementation file).

The C++ code is embedded shallowly:

* `std::map<string, V>` becomes an association list `List (String × V)`;
  `minsert` models `operator[]`-assignment / `insert_or_assign` (replace the
  existing binding in place, append a new key).  The proved claims do not
  depend on the key-sorted iteration order of `std::map`, so entries keep
  their insertion position in this model.
* `std::multimap` (the callback tables) becomes a key-sorted, insertion-stable
  list built by `mmInsert`, mirroring `multimap::insert` placing a new element
  at the upper bound of its equal range.
* Member variables are registered as *pointers*; the program heap is made
  explicit as `Heap` (location-indexed cells) and `ResetFromString` writes
  through the registered locations, exactly as the source does.
* The open template universe of `Register<T>` is closed to the value kinds the
  source instantiates: `T*` for lexically-castable scalars (represented by
  `int`), `bool*`, `shared_ptr<C>` stored by value (instances), `shared_ptr<C>*`
  (instance-reference fields), `vector<E>*` (collections), and
  `double (C::*)(void)` (bookkeeping member functions).
* `TemsimException` throw sites become the constructors of `Err`; an operation
  that can throw returns its (partially) mutated state together with
  `Option Err`, since a C++ exception leaves already-performed mutations in
  place.
-/

/-- Association-list lookup, modelling `std::map::find`. -/
def sfind? {α : Type} : List (String × α) → String → Option α
  | [], _ => none
  | (k', v) :: rest, k => if k = k' then some v else sfind? rest k

/-- Association-list write, modelling `map[k] = v` (replace in place, append new). -/
def minsert {α : Type} : List (String × α) → String → α → List (String × α)
  | [], k, v => [(k, v)]
  | (k', v') :: rest, k, v =>
    if k = k' then (k, v) :: rest else (k', v') :: minsert rest k v

/-- `std::multimap::insert`: the new element goes to the upper bound of its
equal range, i.e. after every element with a key `≤` the new key and before
the first strictly greater key.  This preserves insertion order among equal
keys, which C++ guarantees for `multimap`. -/
def mmInsert {α : Type} : List (String × α) → String → α → List (String × α)
  | [], k, v => [(k, v)]
  | (k', v') :: rest, k, v =>
    if k < k' then (k, v) :: (k', v') :: rest else (k', v') :: mmInsert rest k v

/-- Heap values: the things member variables can hold.  `hsptr cls nm` is the
identity of a shared handle to the registered instance `cls.nm`; `hnull` is a
null `shared_ptr`. -/
inductive HVal : Type
  | hint  (n : Int)
  | hbool (b : Bool)
  | hsptr (cls nm : String)
  | hnull
  | hvec  (elems : List HVal)

/-- The explicit program heap: member variables live in numbered cells. -/
def Heap : Type := List (Nat × HVal)

/-- Read a heap cell. -/
def hGet : Heap → Nat → Option HVal
  | [], _ => none
  | (m, v) :: rest, l => if l = m then some v else hGet rest l

/-- Write a heap cell (in place; a fresh location is appended). -/
def hSet : Heap → Nat → HVal → Heap
  | [], l, v => [(l, v)]
  | (m, w) :: rest, l, v =>
    if l = m then (l, v) :: rest else (m, w) :: hSet rest l v

/-- Element types of registered `std::vector` collections. -/
inductive ETy : Type
  | eint
  | ebool
  | esptr (cls : String)
deriving DecidableEq

/-- The closed universe of types `T` at which `Register<T>` is instantiated.

`pInt`/`pBool` are `T*` fields of lexically-castable / boolean type,
`sptrV cls` is a `shared_ptr<cls>` stored *by value* (what `SetInstance`
stores), `pSptr cls` is a `shared_ptr<cls>*` field, `pVec e` is a
`vector<e>*` field, and `memFn cls` is `double (cls::*)(void)`. -/
inductive Ty : Type
  | pInt
  | pBool
  | sptrV (cls : String)
  | pSptr (cls : String)
  | pVec  (e : ETy)
  | memFn (cls : String)
deriving DecidableEq

/-- Encoding of `typeid(T).name()` for element types. -/
def etyName : ETy → String
  | .eint => "i"
  | .ebool => "b"
  | .esptr cls => "s:" ++ cls

/-- Encoding of `typeid(T).name()`: an injective, implementation-defined string
per type, used as the key of the `Registers` map and the values of the
`TypeNames` map, exactly like the source's RTTI names. -/
def tyName : Ty → String
  | .pInt => "i*"
  | .pBool => "b*"
  | .sptrV cls => "s:" ++ cls
  | .pSptr cls => "p:" ++ cls
  | .pVec e => "v:" ++ etyName e
  | .memFn cls => "m:" ++ cls

/-- What a `Register<T>` entry stores: a raw pointer (`vloc`), a by-value
`shared_ptr` instance handle (`vinst`), a member-function pointer (`vfn`),
or a default-constructed value (`vnull`, produced by `map::operator[]`). -/
inductive StVal : Type
  | vloc  (l : Nat)
  | vinst (cls nm : String)
  | vfn   (cls f : String)
  | vnull
deriving DecidableEq

/-- The location a stored value points at, if it is a raw pointer. -/
def locOf : StVal → Option Nat
  | .vloc l => some l
  | _ => none

/-- The `TemsimException` throw sites of the subsystem, one constructor per
distinct site/message shape:

* `keyNotFound k` — `Register<T>::Get/GetString`: "Couldn't find key [k] in object register";
* `typeRegistryNotFound n` — `ObjectRegister::Get`: "Couldn't find object register for type [n]";
* `noTypeName k` — `ObjectRegister::SetString/GetString`: "Couldn't find a typename for key k";
* `conversionFailure s` — `ResetFromString`: "Couldn't reset value to s";
* `unknownClass c` — `ObjectFactory::Make`: "Class 'c' not registered for use in T4 INI file";
* `missingMember f c e` — `MakeObject`'s wrapper: "member 'f' not defined for c: " ++ what(e). -/
inductive Err : Type
  | keyNotFound (key : String)
  | typeRegistryNotFound (tyname : String)
  | noTypeName (key : String)
  | conversionFailure (s : String)
  | unknownClass (cls : String)
  | missingMember (fld cls : String) (inner : Err)
deriving DecidableEq

/-- `Register<T>`: the per-type store.  `ty` is the `T` this store was created
at (fixed at `new Register<T>`), `Data` is `map<string, T>` and `StringData`
the remembered origin strings `map<string, string>`. -/
structure Register : Type where
  ty : Ty
  Data : List (String × StVal)
  StringData : List (String × String)
deriving DecidableEq

/-- `ObjectRegister`: the per-type stores keyed by `typeid` name, the
key-to-typename routing index, and the named void-callback multimap
(callbacks are identified by opaque `Nat` tags; the time-callback table is
identical in structure and is omitted).  The `mpSimulation` back pointer is
used only by the calendar conversion, which is outside this universe. -/
structure ObjectRegister : Type where
  Registers : List (String × Register)
  TypeNames : List (String × String)
  mVoidCallbacks : List (String × Nat)
deriving DecidableEq

/-- `gRegStringSeps`: the register-string separator. -/
def gRegStringSeps : String := "."

/-- `RegisterString`: join 1–3 components with `"."`, ignoring empty tails. -/
def RegisterString (aFirst aSecond aThird : String) : String :=
  if aSecond = "" then aFirst
  else if aThird = "" then aFirst ++ gRegStringSeps ++ aSecond
  else aFirst ++ gRegStringSeps ++ aSecond ++ gRegStringSeps ++ aThird

/-- `Register<T>::Get`: look the key up in `Data`, throwing when absent. -/
def Register.Get (rd : Register) (aKey : String) : Except Err StVal :=
  match sfind? rd.Data aKey with
  | none => .error (.keyNotFound aKey)
  | some v => .ok v

/-- `Register<T>::SetString`: store/overwrite the remembered origin string. -/
def Register.SetString (rd : Register) (aKey aString : String) : Register :=
  { rd with StringData := minsert rd.StringData aKey aString }

/-- `Register<T>::Set`: store the value; with a non-null default, also store
the string. -/
def Register.Set (rd : Register) (aKey : String) (aVal : StVal)
    (apDefaultValue : Option String) : Register :=
  let rd1 : Register := { rd with Data := minsert rd.Data aKey aVal }
  match apDefaultValue with
  | some s => rd1.SetString aKey s
  | none => rd1

/-- `ObjectRegister::GetType`: `return TypeNames[aKey]` — `map::operator[]`
default-inserts an empty string for an absent key and returns it, so the
call both answers `""` and mutates the type index. -/
def ObjectRegister.GetType (reg : ObjectRegister) (aKey : String) :
    String × ObjectRegister :=
  match sfind? reg.TypeNames aKey with
  | some tn => (tn, reg)
  | none => ("", { reg with TypeNames := minsert reg.TypeNames aKey "" })

/-- `ObjectRegister::HasKey`: membership in the `TypeNames` index. -/
def ObjectRegister.HasKey (reg : ObjectRegister) (aKey : String) : Bool :=
  (sfind? reg.TypeNames aKey).isSome

/-- `ObjectRegister::Get<T>`: find the type register by `typeid(T).name()`
(throwing when no store of that type exists), then delegate. -/
def ObjectRegister.Get (reg : ObjectRegister) (T : Ty) (aKey : String) :
    Except Err StVal :=
  match sfind? reg.Registers (tyName T) with
  | none => .error (.typeRegistryNotFound (tyName T))
  | some rd => rd.Get aKey

/-- `ObjectRegister::Set<T>`: lazily create the `Register<T>` on first use,
delegate the store, and (re)route `aKey` to `typeid(T).name()` in
`TypeNames` — silently overwriting any previous routing. -/
def ObjectRegister.Set (reg : ObjectRegister) (T : Ty) (arKey : String)
    (arVal : StVal) (apDefaultValue : Option String) : ObjectRegister :=
  let rd : Register :=
    match sfind? reg.Registers (tyName T) with
    | some rd => rd
    | none => { ty := T, Data := [], StringData := [] }
  { reg with
    Registers := minsert reg.Registers (tyName T) (rd.Set arKey arVal apDefaultValue)
    TypeNames := minsert reg.TypeNames arKey (tyName T) }

/-- `ObjectRegister::SetString`: route through `TypeNames` (throwing when the
key has no typename) and store the string in the owning register.  When the
typename exists but no such register does, the source dereferences the null
handle produced by `Registers[type_name]` — undefined behaviour, modelled as
a no-op and exercised by no theorem. -/
def ObjectRegister.SetString (reg : ObjectRegister) (aKey aString : String) :
    ObjectRegister × Option Err :=
  match sfind? reg.TypeNames aKey with
  | none => (reg, some (.noTypeName aKey))
  | some tn =>
    match sfind? reg.Registers tn with
    | some rd =>
      ({ reg with Registers := minsert reg.Registers tn (rd.SetString aKey aString) },
        none)
    | none => (reg, none)

/-- `ObjectRegister::FindInstance<T>`: `Get` on the key `class_name.aName`. -/
def ObjectRegister.FindInstance (reg : ObjectRegister) (cls aName : String) :
    Except Err StVal :=
  reg.Get (.sptrV cls) (RegisterString cls aName "")

/-- The storing half of `ObjectRegister::SetInstance`: store the shared
pointer by value under `class_name.Name()`.  (The call into the instance's
own `Register` hook is modelled in `MakeObject` below.) -/
def ObjectRegister.SetInstance (reg : ObjectRegister) (cls aName : String) :
    ObjectRegister :=
  reg.Set (.sptrV cls) (RegisterString cls aName "") (.vinst cls aName) none

/-- `ObjectRegister::AddVoidCallback`: multimap insert under the group name. -/
def ObjectRegister.AddVoidCallback (reg : ObjectRegister) (aName : String)
    (aFunctor : Nat) : ObjectRegister :=
  { reg with mVoidCallbacks := mmInsert reg.mVoidCallbacks aName aFunctor }

/-- `ObjectRegister::DoVoidCallbacks`: `equal_range(aName)` on the multimap —
for the key-sorted table this is the contiguous run of elements with key
`aName` — invoked in order.  The model returns the invocation sequence. -/
def ObjectRegister.DoVoidCallbacks (reg : ObjectRegister) (aName : String) :
    List Nat :=
  (((reg.mVoidCallbacks.dropWhile (fun p => p.1 != aName)).takeWhile
      (fun p => p.1 == aName)).map Prod.snd)

/-- `::tolower` in the "C" locale: ASCII upper-case letters only. -/
def lowerChar (c : Char) : Char :=
  if 65 ≤ c.toNat ∧ c.toNat ≤ 90 then Char.ofNat (c.toNat + 32) else c

/-- `std::transform(s.begin(), s.end(), s.begin(), ::tolower)`. -/
def lowerString (s : String) : String :=
  String.mk (s.toList.map lowerChar)

/-- One decimal digit. -/
def digitVal? (c : Char) : Option Nat :=
  if 48 ≤ c.toNat ∧ c.toNat ≤ 57 then some (c.toNat - 48) else none

/-- Accumulate decimal digits; any non-digit fails. -/
def parseNatCore : List Char → Nat → Option Nat
  | [], acc => some acc
  | c :: cs, acc =>
    match digitVal? c with
    | some d => parseNatCore cs (acc * 10 + d)
    | none => none

/-- `boost::lexical_cast<int>`: an optional sign, then digits, with the whole
string consumed; anything else throws `bad_lexical_cast`. -/
def lexicalCastInt (s : String) : Option Int :=
  match s.toList with
  | [] => none
  | '-' :: cs =>
    match cs with
    | [] => none
    | _ => (parseNatCore cs 0).map (fun n => -(n : Int))
  | '+' :: cs =>
    match cs with
    | [] => none
    | _ => (parseNatCore cs 0).map (fun n => (n : Int))
  | cs => (parseNatCore cs 0).map (fun n => (n : Int))

/-- Modelled from the spec: `EnhancedIniFile::sSeps`, the separator characters
of the collection string grammar, defined in the ini-file module that is not
part of this repository.  Per the spec's key-string format a collection
literal is bracket-enclosed and comma/space-delimited, so the separator set
is brackets, comma and space. -/
def sSeps : List Char := ['[', ']', ',', ' ']

/-- `boost::tokenizer` with `char_separator(sSeps)`: split on separator
characters, dropping empty tokens.  `cur` accumulates the current token in
reverse. -/
def splitTokens (seps : List Char) : List Char → List Char → List String
  | [], cur => if cur.isEmpty then [] else [String.mk cur.reverse]
  | c :: cs, cur =>
    if seps.contains c then
      (if cur.isEmpty then [] else [String.mk cur.reverse]) ++ splitTokens seps cs []
    else
      splitTokens seps cs (c :: cur)

/-- Tokenize a collection literal. -/
def tokenize (seps : List Char) (s : String) : List String :=
  splitTokens seps s.toList []

/-- The `bool` specialization of `ResetFromString`: lowercase in place, accept
`true/yes/y` and `false/no/n`, otherwise throw — with the already-lowercased
token in the message, as the source does. -/
def boolFromString (s : String) : Except Err Bool :=
  let t := lowerString s
  if t = "true" ∨ t = "yes" ∨ t = "y" then .ok true
  else if t = "false" ∨ t = "no" ∨ t = "n" then .ok false
  else .error (.conversionFailure t)

/-- Converting one element string to a value, shared by the scalar `T*`
overloads of `ResetFromString` and the per-element conversions of the
`vector<T>*` overload (which runs them on a scratch cell `&temp`):
`lexical_cast` for scalars, the boolean word table for `bool`, and
`FindInstance` for `shared_ptr` elements. -/
def convertElem (reg : ObjectRegister) : ETy → String → Except Err HVal
  | .eint, s =>
    match lexicalCastInt s with
    | some n => .ok (.hint n)
    | none => .error (.conversionFailure s)
  | .ebool, s =>
    match boolFromString s with
    | .ok b => .ok (.hbool b)
    | .error e => .error e
  | .esptr cls, s =>
    match reg.FindInstance cls s with
    | .error e => .error e
    | .ok (.vinst c n) => .ok (.hsptr c n)
    | .ok _ => .ok .hnull

/-- Convert every token of a collection literal, in list order, failing on the
first bad element. -/
def convertAll (reg : ObjectRegister) (e : ETy) :
    List String → Except Err (List HVal)
  | [] => .ok []
  | t :: ts =>
    match convertElem reg e t with
    | .error err => .error err
    | .ok v =>
      match convertAll reg e ts with
      | .error err => .error err
      | .ok vs => .ok (v :: vs)

/-- The direct string-to-value conversion per type, assembled from the same
`ResetFromString` conversion logic the code runs (scalar casts, boolean
words, instance lookup, tokenized collections); used to state the round-trip
claims.  Member-function pointers have no converter. -/
def convertVal (reg : ObjectRegister) : Ty → String → Except Err HVal
  | .pInt, s => convertElem reg .eint s
  | .pBool, s => convertElem reg .ebool s
  | .pSptr cls, s => convertElem reg (.esptr cls) s
  | .sptrV cls, s => convertElem reg (.esptr cls) s
  | .pVec e, s =>
    match convertAll reg e (tokenize sSeps s) with
    | .ok vs => .ok (.hvec vs)
    | .error err => .error err
  | .memFn _, s => .error (.conversionFailure s)

/-- `v->push_back(temp)` on the vector cell at `l`. -/
def vecPush (heap : Heap) (l : Nat) (v : HVal) : Heap :=
  match hGet heap l with
  | some (.hvec xs) => hSet heap l (.hvec (xs ++ [v]))
  | _ => hSet heap l (.hvec [v])

/-- The element loop of the `vector<T>*` overload: convert each token on a
scratch cell and push it; a conversion failure propagates, leaving the
already-pushed prefix in place. -/
def resetVecLoop (reg : ObjectRegister) (heap : Heap) (e : ETy) (l : Nat) :
    List String → Heap × Option Err
  | [] => (heap, none)
  | t :: ts =>
    match convertElem reg e t with
    | .error err => (heap, some err)
    | .ok v => resetVecLoop reg (vecPush heap l v) e l ts

/-- The `ResetFromString` overload family, dispatched on the stored type:

* member-function pointers: the source body is empty apart from
  `/// @todo Should throw an error here` — a silent no-op;
* `shared_ptr<T>&` (a by-value instance entry): `FindInstance` assigns the
  *local copy* `p` made by `Register<T>::Reset`, so on success nothing in the
  registry or heap changes; a failed lookup still throws;
* `T*` / `bool*` / `shared_ptr<T>*`: convert and write through the pointer;
* `vector<T>*`: `v->clear()` then convert-and-push each token.

Writing through a default-constructed (`vnull`) or ill-typed entry is
undefined behaviour in the source (a null-pointer store); it is modelled as a
no-op and excluded by the well-formedness hypotheses of the theorems. -/
def ResetFromString (reg : ObjectRegister) (heap : Heap) :
    Ty → StVal → String → Heap × Option Err
  | .memFn _, _, _ => (heap, none)
  | .sptrV cls, _, s =>
    match reg.FindInstance cls s with
    | .ok _ => (heap, none)
    | .error e => (heap, some e)
  | .pInt, .vloc l, s =>
    match convertElem reg .eint s with
    | .ok v => (hSet heap l v, none)
    | .error e => (heap, some e)
  | .pBool, .vloc l, s =>
    match convertElem reg .ebool s with
    | .ok v => (hSet heap l v, none)
    | .error e => (heap, some e)
  | .pSptr cls, .vloc l, s =>
    match convertElem reg (.esptr cls) s with
    | .ok v => (hSet heap l v, none)
    | .error e => (heap, some e)
  | .pVec e, .vloc l, s =>
    resetVecLoop reg (hSet heap l (.hvec [])) e l (tokenize sSeps s)
  | _, _, _ => (heap, none)

/-- The body of `Register<T>::Reset`, iterating a snapshot of the register's
`StringData` pairs.  The register is re-read from the `ObjectRegister` by its
`typeid` key at every step because `Data[k]` (`map::operator[]`) may
default-insert a `T()` for a string without a stored value, and that mutation
is visible through the shared register object. -/
def resetEntries (tn : String) :
    List (String × String) → ObjectRegister → Heap →
      ObjectRegister × Heap × Option Err
  | [], reg, heap => (reg, heap, none)
  | (k, s) :: rest, reg, heap =>
    match sfind? reg.Registers tn with
    | none => (reg, heap, none)
    | some rd =>
      match sfind? rd.Data k with
      | some p =>
        match ResetFromString reg heap rd.ty p s with
        | (heap', none) => resetEntries tn rest reg heap'
        | (heap', some e) => (reg, heap', some e)
      | none =>
        let reg' : ObjectRegister :=
          { reg with
            Registers := minsert reg.Registers tn
              { rd with Data := minsert rd.Data k .vnull } }
        match ResetFromString reg' heap rd.ty .vnull s with
        | (heap', none) => resetEntries tn rest reg' heap'
        | (heap', some e) => (reg', heap', some e)

/-- The loop of `ObjectRegister::Reset` over a snapshot of the per-type
registers; a thrown conversion error propagates, abandoning the remaining
registers with all prior mutations in place. -/
def resetRegisters :
    List String → ObjectRegister → Heap → ObjectRegister × Heap × Option Err
  | [], reg, heap => (reg, heap, none)
  | tn :: rest, reg, heap =>
    match sfind? reg.Registers tn with
    | none => resetRegisters rest reg heap
    | some rd =>
      match resetEntries tn rd.StringData reg heap with
      | (reg', heap', none) => resetRegisters rest reg' heap'
      | out => out

/-- `ObjectRegister::Reset`: run every type register's reset. -/
def ObjectRegister.Reset (reg : ObjectRegister) (heap : Heap) :
    ObjectRegister × Heap × Option Err :=
  resetRegisters (reg.Registers.map Prod.fst) reg heap

/-- Modelled from the spec: the domain-object contract (§2, §6) — a class
participating in the registry supplies a class name and the list of fields
its `Register` hook declares; the concrete `Register` implementations live in
the simulation classes outside this repository. -/
structure ClassDef : Type where
  clsName : String
  fields : List (String × Ty)
deriving DecidableEq

/-- The default-constructed value of a freshly built member variable
(value-initialized scalars are modelled as `0`/`false`; no proved claim
depends on the initial cell contents). -/
def defaultHVal : Ty → HVal
  | .pInt => .hint 0
  | .pBool => .hbool false
  | .pVec _ => .hvec []
  | _ => .hnull

/-- Modelled from the spec: the object's own field-registration step — for
each declared field, `Register(reg)` calls `reg.Set(*this, name, &member)`,
i.e. stores a pointer to the member variable under
`ClassName.InstanceName.FieldName`.  Member storage is modelled as
consecutive heap cells starting at `base`. -/
def registerFields (cls nm : String) :
    List (String × Ty) → Nat → ObjectRegister → Heap → ObjectRegister × Heap
  | [], _, reg, heap => (reg, heap)
  | (f, ty) :: rest, base, reg, heap =>
    registerFields cls nm rest (base + 1)
      (reg.Set ty (RegisterString cls nm f) (.vloc base) none)
      (hSet heap base (defaultHVal ty))

/-- The `SetString` loop of `MakeObject`: each name/value pair in turn, in the
order given; a throw is caught and rethrown wrapped with the offending field
and class name, leaving the pairs already applied committed and the rest
unapplied. -/
def applyFields (aClassName aName : String) :
    List (String × String) → ObjectRegister → ObjectRegister × Option Err
  | [], reg => (reg, none)
  | (f, v) :: rest, reg =>
    match reg.SetString (RegisterString aClassName aName f) v with
    | (reg', none) => applyFields aClassName aName rest reg'
    | (reg', some e) => (reg', some (.missingMember f aClassName e))

/-- `MakeObject<T>`: construct the instance (allocating its member cells at
`base`), `SetInstance` it (store the handle, run its field-registration
hook), then apply the ini-file name/value pairs. -/
def MakeObject (cd : ClassDef) (aClassName aName : String)
    (apReg : ObjectRegister) (heap : Heap) (base : Nat)
    (aInifile : List (String × String)) : ObjectRegister × Heap × Option Err :=
  let reg1 := apReg.SetInstance cd.clsName aName
  let rh := registerFields cd.clsName aName cd.fields base reg1 heap
  let out := applyFields aClassName aName aInifile rh.1
  (out.1, rh.2, out.2)

/-- `ObjectFactory`: the maker table (a registered class is modelled by its
`ClassDef`, standing for `&MakeObject<T>`) and the informational base-class
map. -/
structure ObjectFactory : Type where
  mMakers : List (String × ClassDef)
  mClassRelationships : List (String × String)
deriving DecidableEq

/-- `ObjectFactory::AddMaker`. -/
def ObjectFactory.AddMaker (fac : ObjectFactory) (arClassName : String)
    (cd : ClassDef) (arBaseClass : String) : ObjectFactory :=
  { fac with
    mMakers := minsert fac.mMakers arClassName cd
    mClassRelationships :=
      if arBaseClass = "" then fac.mClassRelationships
      else minsert fac.mClassRelationships arClassName arBaseClass }

/-- `ObjectFactory::Make`: dispatch to the registered maker, throwing
`unknownClass` when the class has none. -/
def ObjectFactory.Make (fac : ObjectFactory) (arClassName arName : String)
    (reg : ObjectRegister) (heap : Heap) (base : Nat)
    (arInifile : List (String × String)) : ObjectRegister × Heap × Option Err :=
  match sfind? fac.mMakers arClassName with
  | some cd => MakeObject cd arClassName arName reg heap base arInifile
  | none => (reg, heap, some (.unknownClass arClassName))

/-- The empty object register. -/
def emptyReg : ObjectRegister :=
  { Registers := [], TypeNames := [], mVoidCallbacks := [] }

/-- The pointer-backed register types: those whose `ResetFromString` overload
writes the converted value through the registered pointer. -/
def PtrTy : Ty → Prop
  | .pInt => True
  | .pBool => True
  | .pSptr _ => True
  | .pVec _ => True
  | _ => False

/-- The fold that builds a callback table by repeated `AddVoidCallback`,
starting from an empty register: the insertion history of the table. -/
def buildCallbacks (hist : List (String × Nat)) : ObjectRegister :=
  hist.foldl (fun r p => r.AddVoidCallback p.1 p.2) emptyReg

/-- A register holding one bookkeeping member-function entry
(`Storage::Volume`, registered at type `double (Storage::*)(void)`) together
with a remembered origin string for it. -/
def regFn : ObjectRegister :=
  { Registers := [("m:Storage",
      { ty := .memFn "Storage",
        Data := [("Storage::Volume", .vfn "Storage" "Volume")],
        StringData := [("Storage::Volume", "hourly")] })],
    TypeNames := [("Storage::Volume", "m:Storage")],
    mVoidCallbacks := [] }

/-- A one-field class and a factory that registers a maker for it, for the
factory witnesses. -/
def cdStorage : ClassDef := { clsName := "Storage", fields := [("EOL", .pInt)] }

/-- A factory with `cdStorage` registered under class name `Storage`. -/
def facW : ObjectFactory :=
  { mMakers := [("Storage", cdStorage)], mClassRelationships := [] }

/-- A register with one pointer-backed `int` entry `k` at heap cell `0`. -/
def regW2 : ObjectRegister :=
  { Registers := [("i*", { ty := .pInt, Data := [("k", .vloc 0)], StringData := [] })],
    TypeNames := [("k", "i*")],
    mVoidCallbacks := [] }

/-- A register whose key `k` is currently routed to the `bool*` store. -/
def regW4 : ObjectRegister :=
  { Registers := [("b*", { ty := .pBool, Data := [("k", .vloc 3)], StringData := [] })],
    TypeNames := [("k", "b*")],
    mVoidCallbacks := [] }

/-- A register holding two by-value instance handles, `Storage.Lake` and
`Storage.Spill`. -/
def regCx : ObjectRegister :=
  { Registers := [("s:Storage",
      { ty := .sptrV "Storage",
        Data := [("Storage.Lake", .vinst "Storage" "Lake"),
                 ("Storage.Spill", .vinst "Storage" "Spill")],
        StringData := [] })],
    TypeNames := [("Storage.Lake", "s:Storage"), ("Storage.Spill", "s:Storage")],
    mVoidCallbacks := [] }

/-! ### Association-list and heap lemmas -/

theorem sfind?_minsert_self {α : Type} (l : List (String × α)) (k : String) (v : α) :
    sfind? (minsert l k v) k = some v := by
  induction l with
  | nil => simp [minsert, sfind?]
  | cons p rest ih =>
    obtain ⟨k', v'⟩ := p
    by_cases h : k = k'
    · simp [minsert, h, sfind?]
    · simp [minsert, h, sfind?, ih]

theorem sfind?_minsert_ne {α : Type} (l : List (String × α)) (k k' : String) (v : α)
    (h : k' ≠ k) : sfind? (minsert l k v) k' = sfind? l k' := by
  induction l with
  | nil => simp [minsert, sfind?, h]
  | cons p rest ih =>
    obtain ⟨k1, v1⟩ := p
    by_cases h1 : k = k1
    · subst h1
      simp [minsert, sfind?, h]
    · by_cases h2 : k' = k1
      · simp [minsert, h1, sfind?, h2]
      · simp [minsert, h1, sfind?, h2, ih]

theorem sfind?_some_mem {α : Type} {l : List (String × α)} {k : String} {v : α}
    (h : sfind? l k = some v) : (k, v) ∈ l := by
  induction l with
  | nil => simp [sfind?] at h
  | cons p rest ih =>
    obtain ⟨k', v'⟩ := p
    by_cases hk : k = k'
    · subst hk
      simp [sfind?] at h
      simp [h]
    · simp [sfind?, hk] at h
      exact List.mem_cons_of_mem _ (ih h)

theorem mem_minsert {α : Type} {l : List (String × α)} {k : String} {v : α}
    {p : String × α} (h : p ∈ minsert l k v) : p = (k, v) ∨ p ∈ l := by
  induction l with
  | nil => simp [minsert] at h; simp [h]
  | cons q rest ih =>
    obtain ⟨k', v'⟩ := q
    by_cases hk : k = k'
    · subst hk
      simp [minsert] at h
      rcases h with h | h
      · exact Or.inl (by simp [h])
      · exact Or.inr (List.mem_cons_of_mem _ h)
    · simp [minsert, hk] at h
      rcases h with h | h
      · exact Or.inr (by simp [h])
      · rcases ih h with h' | h'
        · exact Or.inl h'
        · exact Or.inr (List.mem_cons_of_mem _ h')

theorem mem_minsert_self {α : Type} (l : List (String × α)) (k : String) (v : α) :
    (k, v) ∈ minsert l k v := by
  induction l with
  | nil => simp [minsert]
  | cons q rest ih =>
    obtain ⟨k', v'⟩ := q
    by_cases hk : k = k'
    · simp [minsert, hk]
    · simp only [minsert, hk, if_false]
      exact List.mem_cons_of_mem _ ih

theorem keys_minsert {α : Type} (l : List (String × α)) (k : String) (v : α) :
    (minsert l k v).map Prod.fst =
      if k ∈ l.map Prod.fst then l.map Prod.fst else l.map Prod.fst ++ [k] := by
  induction l with
  | nil => simp [minsert]
  | cons q rest ih =>
    obtain ⟨k', v'⟩ := q
    by_cases hk : k = k'
    · subst hk
      simp [minsert]
    · have hk' : ¬ k' = k := fun h => hk h.symm
      simp [minsert, hk, ih, hk']
      by_cases hmem : k ∈ rest.map Prod.fst
      · simp [hmem, hk]
      · simp [hmem, hk]

theorem nodup_keys_minsert {α : Type} {l : List (String × α)} (k : String) (v : α)
    (h : (l.map Prod.fst).Nodup) : ((minsert l k v).map Prod.fst).Nodup := by
  rw [keys_minsert]
  by_cases hmem : k ∈ l.map Prod.fst
  · simpa [hmem] using h
  · simp only [hmem, if_false]
    simp [List.nodup_append, h, hmem]

theorem mem_minsert_key_eq {α : Type} :
    ∀ {l : List (String × α)} {k : String} {v : α} {p : String × α},
      (l.map Prod.fst).Nodup → p ∈ minsert l k v → p.1 = k → p = (k, v) := by
  intro l
  induction l with
  | nil =>
    intro k v p _ hp _
    simpa [minsert] using hp
  | cons q rest ih =>
    intro k v p hnd hp hk
    obtain ⟨k', v'⟩ := q
    simp only [List.map_cons, List.nodup_cons] at hnd
    by_cases hkk : k = k'
    · subst hkk
      simp [minsert] at hp
      rcases hp with hp | hp
      · simp [hp]
      · exfalso
        exact hnd.1 (hk ▸ (List.mem_map_of_mem Prod.fst hp))
    · simp [minsert, hkk] at hp
      rcases hp with hp | hp
      · exfalso
        apply hkk
        rw [← hk, hp]
      · exact ih hnd.2 hp hk

theorem hGet_hSet_self (h : Heap) (l : Nat) (v : HVal) :
    hGet (hSet h l v) l = some v := by
  induction h with
  | nil => simp [hSet, hGet]
  | cons p rest ih =>
    obtain ⟨m, w⟩ := p
    by_cases hm : l = m
    · simp [hSet, hm, hGet]
    · simp [hSet, hm, hGet, ih]

theorem hGet_hSet_ne (h : Heap) (l m : Nat) (v : HVal) (hne : m ≠ l) :
    hGet (hSet h l v) m = hGet h m := by
  induction h with
  | nil => simp [hSet, hGet, hne]
  | cons p rest ih =>
    obtain ⟨m', w⟩ := p
    by_cases hm : l = m'
    · subst hm
      simp [hSet, hGet, hne]
    · by_cases hm2 : m = m'
      · simp [hSet, hm, hGet, hm2]
      · simp [hSet, hm, hGet, hm2, ih]

theorem hSet_hSet_self (h : Heap) (l : Nat) (v w : HVal) :
    hSet (hSet h l v) l w = hSet h l w := by
  induction h with
  | nil => simp [hSet]
  | cons p rest ih =>
    obtain ⟨m, u⟩ := p
    by_cases hm : l = m
    · simp [hSet, hm]
    · simp [hSet, hm, ih]

/-- Both halves of `Register<T>::Set` leave the same `Data` update. -/
theorem Register.Set_Data (rd : Register) (k : String) (v : StVal)
    (d : Option String) : (rd.Set k v d).Data = minsert rd.Data k v := by
  cases d <;> rfl

/-- `Register<T>::Set` does not change the store's type. -/
theorem Register.Set_ty (rd : Register) (k : String) (v : StVal)
    (d : Option String) : (rd.Set k v d).ty = rd.ty := by
  cases d <;> rfl

/-- C5: the typed `ObjectRegister::Get<T>` fails with `typeRegistryNotFound`
when no value of type `T` has ever been stored (no `Register<T>` exists),
fails with `keyNotFound` when the store exists but the key is absent from it,
and otherwise returns the stored value. -/
theorem Get_trichotomy (reg : ObjectRegister) (T : Ty) (k : String) :
    reg.Get T k =
      match sfind? reg.Registers (tyName T) with
      | none => .error (.typeRegistryNotFound (tyName T))
      | some rd =>
        match sfind? rd.Data k with
        | none => .error (.keyNotFound k)
        | some v => .ok v := by
  cases h : sfind? reg.Registers (tyName T) with
  | none => simp [ObjectRegister.Get, h]
  | some rd =>
    cases h2 : sfind? rd.Data k with
    | none => simp [ObjectRegister.Get, h, Register.Get, h2]
    | some v => simp [ObjectRegister.Get, h, Register.Get, h2]

/-- C4: `ObjectRegister::Set<T>` lazily creates the `Register<T>` store on
first use and records `key → typeid(T)` in the type index, silently
overwriting any prior routing of the key (there is no error path — `Set`
returns a register unconditionally); given a duplicate-free type index, the
key maps to exactly one type tag afterwards. -/
theorem Set_typeindex (reg : ObjectRegister) (T : Ty) (k : String) (v : StVal)
    (d : Option String) (hnodup : (reg.TypeNames.map Prod.fst).Nodup) :
    sfind? (reg.Set T k v d).TypeNames k = some (tyName T) ∧
    ((reg.Set T k v d).TypeNames.map Prod.fst).Nodup ∧
    ∃ rd, sfind? (reg.Set T k v d).Registers (tyName T) = some rd ∧
      sfind? rd.Data k = some v := by
  refine ⟨?_, ?_, ?_⟩
  · simp [ObjectRegister.Set, sfind?_minsert_self]
  · simp only [ObjectRegister.Set]
    exact nodup_keys_minsert k (tyName T) hnodup
  · cases hfind : sfind? reg.Registers (tyName T) with
    | none =>
      refine ⟨({ ty := T, Data := [], StringData := [] } : Register).Set k v d, ?_, ?_⟩
      · simp [ObjectRegister.Set, hfind, sfind?_minsert_self]
      · rw [Register.Set_Data]
        simp [sfind?_minsert_self]
    | some rd =>
      refine ⟨rd.Set k v d, ?_, ?_⟩
      · simp [ObjectRegister.Set, hfind, sfind?_minsert_self]
      · rw [Register.Set_Data]
        simp [sfind?_minsert_self]

/-- C4 witness: re-registering key `k` (previously routed to the `bool*`
store) at type `int*` silently overwrites the routing. -/
theorem Set_typeindex_witness :
    sfind? (regW4.Set .pInt "k" (.vloc 5) none).TypeNames "k" = some (tyName .pInt) ∧
    ((regW4.Set .pInt "k" (.vloc 5) none).TypeNames.map Prod.fst).Nodup ∧
    ∃ rd, sfind? (regW4.Set .pInt "k" (.vloc 5) none).Registers (tyName .pInt) = some rd ∧
      sfind? rd.Data "k" = some (.vloc 5) :=
  Set_typeindex regW4 .pInt "k" (.vloc 5) none (by decide)

/-- C10: `GetType` on a key with no type-index entry returns the empty string
and, as a side effect, default-inserts an empty type-index entry for the key
(`map::operator[]`), so a subsequent `HasKey` answers `true` although no
value was ever stored under the key. -/
theorem GetType_default_inserts (reg : ObjectRegister) (k : String)
    (h : sfind? reg.TypeNames k = none) :
    reg.GetType k = ("", { reg with TypeNames := minsert reg.TypeNames k "" }) ∧
    ((reg.GetType k).2).HasKey k = true := by
  have h1 : reg.GetType k = ("", { reg with TypeNames := minsert reg.TypeNames k "" }) := by
    simp [ObjectRegister.GetType, h]
  refine ⟨h1, ?_⟩
  rw [h1]
  simp [ObjectRegister.HasKey, sfind?_minsert_self]

/-- C10 witness: on the empty register, `GetType "x"` answers `""` and makes
`HasKey "x"` true. -/
theorem GetType_default_inserts_witness :
    emptyReg.GetType "x" =
      ("", { Registers := [], TypeNames := [("x", "")], mVoidCallbacks := [] }) ∧
    ((emptyReg.GetType "x").2).HasKey "x" = true :=
  GetType_default_inserts emptyReg "x" rfl

/-- C3: the source's `ResetFromString` overloads for member-function pointers
have an empty body apart from the comment `@todo Should throw an error here`;
a reset pass over a function-pointer entry that has a remembered origin
string therefore silently succeeds — no reset-unsupported error is reported —
contradicting both the spec and the source's own todo comment. -/
theorem memFn_reset_silently_succeeds :
    regFn.Reset [] = (regFn, [], none) ∧
    ResetFromString regFn [] (.memFn "Storage") (.vfn "Storage" "Volume") "hourly"
      = ([], none) :=
  ⟨rfl, rfl⟩

/-- C8: boolean conversion lowercases the token (ASCII, per `::tolower` in the
C locale) and yields `true` exactly on `true/yes/y`, `false` exactly on
`false/no/n`, and a conversion-failure error on every other token; the
outcome depends only on the lowercased token (case-insensitivity). -/
theorem bool_conversion_spec :
    (∀ (reg : ObjectRegister) (heap : Heap) (l : Nat) (s : String),
      ResetFromString reg heap .pBool (.vloc l) s =
        if lowerString s = "true" ∨ lowerString s = "yes" ∨ lowerString s = "y" then
          (hSet heap l (.hbool true), none)
        else if lowerString s = "false" ∨ lowerString s = "no" ∨ lowerString s = "n" then
          (hSet heap l (.hbool false), none)
        else (heap, some (.conversionFailure (lowerString s)))) ∧
    (∀ (reg : ObjectRegister) (heap : Heap) (l : Nat) (s t : String),
      lowerString s = lowerString t →
      ResetFromString reg heap .pBool (.vloc l) s =
        ResetFromString reg heap .pBool (.vloc l) t) := by
  constructor
  · intro reg heap l s
    by_cases h1 : lowerString s = "true" ∨ lowerString s = "yes" ∨ lowerString s = "y"
    · simp [ResetFromString, convertElem, boolFromString, h1]
    · by_cases h2 : lowerString s = "false" ∨ lowerString s = "no" ∨ lowerString s = "n"
      · simp [ResetFromString, convertElem, boolFromString, h1, h2]
      · simp [ResetFromString, convertElem, boolFromString, h1, h2]
  · intro reg heap l s t h
    simp [ResetFromString, convertElem, boolFromString, h]

/-- C8 witness: `"TRUE"` converts exactly as `"true"` does. -/
theorem bool_conversion_spec_witness :
    ResetFromString emptyReg [] .pBool (.vloc 0) "TRUE" =
      ResetFromString emptyReg [] .pBool (.vloc 0) "true" :=
  bool_conversion_spec.2 emptyReg [] 0 "TRUE" "true" rfl

/-- The element loop of the vector overload: when every token converts, the
net effect is appending the converted values, in order, to the cleared
vector cell. -/
theorem resetVecLoop_ok (reg : ObjectRegister) (e : ETy) (l : Nat) :
    ∀ (toks : List String) (vs : List HVal) (heap : Heap) (xs : List HVal),
      convertAll reg e toks = .ok vs →
      resetVecLoop reg (hSet heap l (.hvec xs)) e l toks =
        (hSet heap l (.hvec (xs ++ vs)), none) := by
  intro toks
  induction toks with
  | nil =>
    intro vs heap xs h
    simp [convertAll] at h
    subst h
    simp [resetVecLoop]
  | cons t ts ih =>
    intro vs heap xs h
    cases hc : convertElem reg e t with
    | error err => simp [convertAll, hc] at h
    | ok v =>
      cases hall : convertAll reg e ts with
      | error err => simp [convertAll, hc, hall] at h
      | ok vs' =>
        have hvs : vs = v :: vs' := by
          simp [convertAll, hc, hall] at h
          exact h.symm
        subst hvs
        simp only [resetVecLoop, hc]
        have hv : vecPush (hSet heap l (.hvec xs)) l v = hSet heap l (.hvec (xs ++ [v])) := by
          simp [vecPush, hGet_hSet_self, hSet_hSet_self]
        rw [hv, ih vs' heap (xs ++ [v]) hall]
        simp

/-- C7: the `vector<T>*` overload of `ResetFromString` re-derives the
collection from the bracketed separator-delimited list: the prior contents
of the collection's cell are replaced wholesale (the result is a plain write
to the cell, whatever it held before), each element string is converted
independently by the element type's converter and appended in list order,
and the empty bracketed string `"[]"` yields the empty collection. -/
theorem vector_reset_spec (reg : ObjectRegister) (heap : Heap) (e : ETy) (l : Nat)
    (s : String) (vs : List HVal)
    (hconv : convertAll reg e (tokenize sSeps s) = .ok vs) :
    ResetFromString reg heap (.pVec e) (.vloc l) s = (hSet heap l (.hvec vs), none) ∧
    ResetFromString reg heap (.pVec e) (.vloc l) "[]" = (hSet heap l (.hvec []), none) := by
  constructor
  · have h := resetVecLoop_ok reg e l (tokenize sSeps s) vs heap [] hconv
    simpa [ResetFromString] using h
  · have h0 : tokenize sSeps "[]" = [] := rfl
    simp [ResetFromString, h0, resetVecLoop]

/-- C7 witness: `"[1, 2]"` into an `int` collection whose cell previously held
`7`, and `"[]"` into the same cell. -/
theorem vector_reset_spec_witness :
    ResetFromString emptyReg [(0, .hint 7)] (.pVec .eint) (.vloc 0) "[1, 2]" =
      ([(0, .hvec [.hint 1, .hint 2])], none) ∧
    ResetFromString emptyReg [(0, .hint 7)] (.pVec .eint) (.vloc 0) "[]" =
      ([(0, .hvec [])], none) :=
  vector_reset_spec emptyReg [(0, .hint 7)] .eint 0 "[1, 2]" [.hint 1, .hint 2] rfl

/-! ### Multimap (callback table) lemmas -/

theorem mem_mmInsert {α : Type} {l : List (String × α)} {k : String} {v : α}
    {p : String × α} (h : p ∈ mmInsert l k v) : p = (k, v) ∨ p ∈ l := by
  induction l with
  | nil => simp [mmInsert] at h; simp [h]
  | cons q rest ih =>
    obtain ⟨k', v'⟩ := q
    by_cases hk : k < k'
    · simp [mmInsert, hk] at h
      rcases h with h | h | h
      · exact Or.inl (by simp [h])
      · exact Or.inr (by simp [h])
      · exact Or.inr (List.mem_cons_of_mem _ h)
    · simp [mmInsert, hk] at h
      rcases h with h | h
      · exact Or.inr (by simp [h])
      · rcases ih h with h' | h'
        · exact Or.inl h'
        · exact Or.inr (List.mem_cons_of_mem _ h')

theorem mmInsert_sorted {α : Type} {l : List (String × α)} (k : String) (v : α)
    (h : l.Pairwise (fun a b => a.1 ≤ b.1)) :
    (mmInsert l k v).Pairwise (fun a b => a.1 ≤ b.1) := by
  induction l with
  | nil => simp [mmInsert]
  | cons q rest ih =>
    obtain ⟨k', v'⟩ := q
    rw [List.pairwise_cons] at h
    by_cases hk : k < k'
    · simp only [mmInsert, hk, if_true]
      rw [List.pairwise_cons]
      constructor
      · intro b hb
        rcases List.mem_cons.mp hb with hb | hb
        · rw [hb]
          exact le_of_lt hk
        · exact le_trans (le_of_lt hk) (h.1 b hb)
      · exact List.pairwise_cons.mpr h
    · simp only [mmInsert, hk, if_false]
      rw [List.pairwise_cons]
      refine ⟨?_, ih h.2⟩
      intro b hb
      rcases mem_mmInsert hb with hb | hb
      · rw [hb]
        exact le_of_not_lt hk
      · exact h.1 b hb

theorem filter_mmInsert {α : Type} (n k : String) (v : α) :
    ∀ (l : List (String × α)), l.Pairwise (fun a b => a.1 ≤ b.1) →
      (mmInsert l k v).filter (fun p => p.1 == n) =
        l.filter (fun p => p.1 == n) ++ (if k = n then [(k, v)] else []) := by
  intro l
  induction l with
  | nil =>
    intro _
    by_cases hk : k = n
    · simp [mmInsert, hk]
    · simp [mmInsert, hk]
  | cons q rest ih =>
    intro hp
    obtain ⟨k', v'⟩ := q
    rw [List.pairwise_cons] at hp
    by_cases hlt : k < k'
    · simp only [mmInsert, hlt, if_true]
      by_cases hk : k = n
      · subst hk
        have hnil : List.filter (fun p => p.1 == k) ((k', v') :: rest) = [] := by
          rw [List.filter_eq_nil_iff]
          intro b hb
          have hlt2 : k < b.1 := by
            rcases List.mem_cons.mp hb with hb | hb
            · rw [hb]; exact hlt
            · exact lt_of_lt_of_le hlt (hp.1 b hb)
          simp only [beq_iff_eq]
          exact ne_of_gt hlt2
        simp [List.filter_cons, hnil]
      · simp [List.filter_cons, hk]
    · simp only [mmInsert, hlt, if_false]
      by_cases hk' : k' = n
      · simp [List.filter_cons, hk', ih hp.2]
      · simp [List.filter_cons, hk', ih hp.2]

theorem takeWhile_eq_filter_of_lb {α : Type} (n : String) :
    ∀ (l : List (String × α)), l.Pairwise (fun a b => a.1 ≤ b.1) →
      (∀ b ∈ l, n ≤ b.1) →
      l.takeWhile (fun p => p.1 == n) = l.filter (fun p => p.1 == n) := by
  intro l
  induction l with
  | nil => intro _ _; rfl
  | cons q rest ih =>
    intro hp hlb
    obtain ⟨k', v'⟩ := q
    rw [List.pairwise_cons] at hp
    by_cases hk : k' = n
    · subst hk
      have h1 := ih hp.2 hp.1
      simp [List.takeWhile_cons, List.filter_cons, h1]
    · have hnlt : n < k' :=
        lt_of_le_of_ne (hlb (k', v') (List.mem_cons_self _ _)) (fun h => hk h.symm)
      have hnil : List.filter (fun p => p.1 == n) ((k', v') :: rest) = [] := by
        rw [List.filter_eq_nil_iff]
        intro b hb
        have hlt2 : n < b.1 := by
          rcases List.mem_cons.mp hb with hb | hb
          · rw [hb]; exact hnlt
          · exact lt_of_lt_of_le hnlt (hp.1 b hb)
        simp only [beq_iff_eq]
        exact ne_of_gt hlt2
      have hbeq : (k' == n) = false := by simp [hk]
      simp [List.takeWhile_cons, hbeq, hnil]

theorem equalRange_eq_filter {α : Type} (n : String) :
    ∀ (l : List (String × α)), l.Pairwise (fun a b => a.1 ≤ b.1) →
      ((l.dropWhile (fun p => p.1 != n)).takeWhile (fun p => p.1 == n)) =
        l.filter (fun p => p.1 == n) := by
  intro l
  induction l with
  | nil => intro _; rfl
  | cons q rest ih =>
    intro hp
    obtain ⟨k', v'⟩ := q
    rw [List.pairwise_cons] at hp
    by_cases hk : k' = n
    · subst hk
      have h1 := takeWhile_eq_filter_of_lb k' rest hp.2 hp.1
      simp [List.dropWhile_cons, List.takeWhile_cons, List.filter_cons, h1]
    · have hbne : (k' != n) = true := by simp [hk]
      have hbeq : (k' == n) = false := by simp [hk]
      simp [List.dropWhile_cons, List.filter_cons, hbne, hbeq, ih hp.2]

theorem foldl_mmInsert_sorted (hist : List (String × Nat)) :
    ∀ (l : List (String × Nat)), l.Pairwise (fun a b => a.1 ≤ b.1) →
      (hist.foldl (fun acc p => mmInsert acc p.1 p.2) l).Pairwise
        (fun a b => a.1 ≤ b.1) := by
  induction hist with
  | nil => intro l h; simpa using h
  | cons p hist ih =>
    intro l h
    simp only [List.foldl_cons]
    exact ih _ (mmInsert_sorted p.1 p.2 h)

theorem filter_foldl_mmInsert (n : String) (hist : List (String × Nat)) :
    ∀ (l : List (String × Nat)), l.Pairwise (fun a b => a.1 ≤ b.1) →
      (hist.foldl (fun acc p => mmInsert acc p.1 p.2) l).filter (fun p => p.1 == n) =
        l.filter (fun p => p.1 == n) ++ hist.filter (fun p => p.1 == n) := by
  induction hist with
  | nil => intro l _; simp
  | cons p hist ih =>
    intro l h
    obtain ⟨pk, pv⟩ := p
    simp only [List.foldl_cons]
    rw [ih _ (mmInsert_sorted pk pv h)]
    rw [filter_mmInsert n pk pv l h]
    by_cases hk : pk = n
    · subst hk
      simp [List.filter_cons, List.append_assoc]
    · simp [List.filter_cons, hk]

theorem foldl_AddVoidCallback_cbs (hist : List (String × Nat)) :
    ∀ (r : ObjectRegister),
      (hist.foldl (fun r p => r.AddVoidCallback p.1 p.2) r).mVoidCallbacks =
        hist.foldl (fun acc p => mmInsert acc p.1 p.2) r.mVoidCallbacks := by
  induction hist with
  | nil => intro r; rfl
  | cons p hist ih =>
    intro r
    simp only [List.foldl_cons]
    rw [ih]
    rfl

/-- C9: for any insertion history of `AddVoidCallback` calls, invoking the
callbacks of a group name calls exactly the callbacks registered under that
name, each exactly once, in the order they were added (the invocation list
is the name's subsequence of the history); invoking a name with no
registered callbacks is a no-op, not an error. -/
theorem callbacks_in_insertion_order :
    (∀ (hist : List (String × Nat)) (name : String),
      (buildCallbacks hist).DoVoidCallbacks name =
        (hist.filter (fun p => p.1 == name)).map Prod.snd) ∧
    (∀ (hist : List (String × Nat)) (name : String),
      (∀ p ∈ hist, p.1 ≠ name) →
      (buildCallbacks hist).DoVoidCallbacks name = []) := by
  have hmain : ∀ (hist : List (String × Nat)) (name : String),
      (buildCallbacks hist).DoVoidCallbacks name =
        (hist.filter (fun p => p.1 == name)).map Prod.snd := by
    intro hist name
    unfold ObjectRegister.DoVoidCallbacks buildCallbacks
    rw [foldl_AddVoidCallback_cbs]
    have hs : (hist.foldl (fun acc p => mmInsert acc p.1 p.2)
        emptyReg.mVoidCallbacks).Pairwise (fun a b => a.1 ≤ b.1) :=
      foldl_mmInsert_sorted hist _ (by simp [emptyReg])
    rw [equalRange_eq_filter name _ hs]
    rw [filter_foldl_mmInsert name hist _ (by simp [emptyReg])]
    simp [emptyReg]
  refine ⟨hmain, ?_⟩
  intro hist name h
  rw [hmain hist name]
  have hnil : hist.filter (fun p => p.1 == name) = [] := by
    rw [List.filter_eq_nil_iff]
    intro b hb
    simp only [beq_iff_eq]
    exact h b hb
  simp [hnil]

/-- C9 witness: callbacks 1 and 2 added to group `start` in that order fire as
`[1, 2]`; a name with no callbacks fires nothing. -/
theorem callbacks_in_insertion_order_witness :
    (buildCallbacks [("start", 1), ("start", 2), ("stop", 3)]).DoVoidCallbacks "start"
      = [1, 2] ∧
    (buildCallbacks [("stop", 3)]).DoVoidCallbacks "start" = [] :=
  ⟨(callbacks_in_insertion_order.1 [("start", 1), ("start", 2), ("stop", 3)] "start").trans
      rfl,
   callbacks_in_insertion_order.2 [("stop", 3)] "start" (by decide)⟩

/-! ### Factory lemmas -/

theorem SetString_err_const (reg : ObjectRegister) (k s : String) (e : Err)
    (h : (reg.SetString k s).2 = some e) : (reg.SetString k s).1 = reg := by
  unfold ObjectRegister.SetString
  cases h1 : sfind? reg.TypeNames k with
  | none => rfl
  | some tn =>
    cases h2 : sfind? reg.Registers tn with
    | none => simp [h2]
    | some rd =>
      exfalso
      simp [ObjectRegister.SetString, h1, h2] at h

theorem SetString_TypeNames_const (reg : ObjectRegister) (k s : String) :
    (reg.SetString k s).1.TypeNames = reg.TypeNames := by
  unfold ObjectRegister.SetString
  cases h1 : sfind? reg.TypeNames k with
  | none => rfl
  | some tn =>
    cases h2 : sfind? reg.Registers tn with
    | none => simp [h2]
    | some rd => simp [h2]

theorem applyFields_append (cls nm : String) :
    ∀ (a b : List (String × String)) (reg : ObjectRegister),
      (applyFields cls nm a reg).2 = none →
      applyFields cls nm (a ++ b) reg =
        applyFields cls nm b (applyFields cls nm a reg).1 := by
  intro a
  induction a with
  | nil => intro b reg _; rfl
  | cons fv rest ih =>
    intro b reg h
    obtain ⟨f, v⟩ := fv
    cases hss : reg.SetString (RegisterString cls nm f) v with
    | mk reg' err =>
      cases err with
      | none =>
        have h' : (applyFields cls nm rest reg').2 = none := by
          simpa [applyFields, hss] using h
        simp [applyFields, hss, ih b reg' h']
      | some e =>
        exfalso
        simp [applyFields, hss] at h

theorem Make_eq (fac : ObjectFactory) (cd : ClassDef) (cls nm : String)
    (reg : ObjectRegister) (heap : Heap) (base : Nat)
    (fs : List (String × String))
    (hm : sfind? fac.mMakers cls = some cd) :
    fac.Make cls nm reg heap base fs =
      ((applyFields cls nm fs
          (registerFields cd.clsName nm cd.fields base
            (reg.SetInstance cd.clsName nm) heap).1).1,
       (registerFields cd.clsName nm cd.fields base
          (reg.SetInstance cd.clsName nm) heap).2,
       (applyFields cls nm fs
          (registerFields cd.clsName nm cd.fields base
            (reg.SetInstance cd.clsName nm) heap).1).2) := by
  simp [ObjectFactory.Make, hm, MakeObject]

/-- Processing a field list splits sequentially at any prefix whose
application succeeded. -/
theorem Make_append (fac : ObjectFactory) (cd : ClassDef) (cls nm : String)
    (reg : ObjectRegister) (heap : Heap) (base : Nat)
    (fs1 fs2 : List (String × String))
    (hm : sfind? fac.mMakers cls = some cd)
    (hpre : (fac.Make cls nm reg heap base fs1).2.2 = none) :
    fac.Make cls nm reg heap base (fs1 ++ fs2) =
      ((applyFields cls nm fs2 (fac.Make cls nm reg heap base fs1).1).1,
       (fac.Make cls nm reg heap base fs1).2.1,
       (applyFields cls nm fs2 (fac.Make cls nm reg heap base fs1).1).2) := by
  have hpre' : (applyFields cls nm fs1
      (registerFields cd.clsName nm cd.fields base
        (reg.SetInstance cd.clsName nm) heap).1).2 = none := by
    rw [Make_eq fac cd cls nm reg heap base fs1 hm] at hpre
    exact hpre
  rw [Make_eq fac cd cls nm reg heap base (fs1 ++ fs2) hm,
      Make_eq fac cd cls nm reg heap base fs1 hm]
  rw [applyFields_append cls nm fs1 fs2 _ hpre']

/-- A failing field application leaves exactly the state reached by the
preceding fields and yields the wrapped missing-member error. -/
theorem Make_fail_at (fac : ObjectFactory) (cd : ClassDef) (cls nm : String)
    (reg : ObjectRegister) (heap : Heap) (base : Nat)
    (fs1 fs2 : List (String × String)) (f v : String) (e : Err)
    (hm : sfind? fac.mMakers cls = some cd)
    (hpre : (fac.Make cls nm reg heap base fs1).2.2 = none)
    (hfail : (((fac.Make cls nm reg heap base fs1).1).SetString
        (RegisterString cls nm f) v).2 = some e) :
    fac.Make cls nm reg heap base (fs1 ++ (f, v) :: fs2) =
      ((fac.Make cls nm reg heap base fs1).1,
       (fac.Make cls nm reg heap base fs1).2.1,
       some (.missingMember f cls e)) := by
  have h1 := SetString_err_const _ _ _ e hfail
  have hpair : ((fac.Make cls nm reg heap base fs1).1).SetString
      (RegisterString cls nm f) v = ((fac.Make cls nm reg heap base fs1).1, some e) := by
    rw [Prod.ext_iff]
    exact ⟨h1, hfail⟩
  rw [Make_append fac cd cls nm reg heap base fs1 ((f, v) :: fs2) hm hpre]
  simp [applyFields, hpair]

/-- C1: for a class with a registered maker, `Factory::Make` applies the
supplied field name/value pairs in the order given by the configuration
mapping, front to back (the ini-file reader hands `Make` an ordered
name-to-value mapping, and `MakeObject` walks it in its iteration order):
first, applying `fs1 ++ fs2` is the sequential composition of applying `fs1`
and then `fs2` from the reached state; second, if applying the pair after
`fs1` fails, the resulting state is exactly the state after `fs1` — the
earlier fields remain committed, nothing is rolled back, and no later pair
is applied — with the failure rethrown as a missing-member error. -/
theorem Make_applies_fields_in_order (fac : ObjectFactory) (cd : ClassDef)
    (cls nm : String) (reg : ObjectRegister) (heap : Heap) (base : Nat)
    (fs1 : List (String × String))
    (hm : sfind? fac.mMakers cls = some cd)
    (hpre : (fac.Make cls nm reg heap base fs1).2.2 = none) :
    (∀ fs2 : List (String × String),
      fac.Make cls nm reg heap base (fs1 ++ fs2) =
        ((applyFields cls nm fs2 (fac.Make cls nm reg heap base fs1).1).1,
         (fac.Make cls nm reg heap base fs1).2.1,
         (applyFields cls nm fs2 (fac.Make cls nm reg heap base fs1).1).2)) ∧
    (∀ (f v : String) (fs2 : List (String × String)) (e : Err),
      (((fac.Make cls nm reg heap base fs1).1).SetString
          (RegisterString cls nm f) v).2 = some e →
      fac.Make cls nm reg heap base (fs1 ++ (f, v) :: fs2) =
        ((fac.Make cls nm reg heap base fs1).1,
         (fac.Make cls nm reg heap base fs1).2.1,
         some (.missingMember f cls e))) :=
  ⟨fun fs2 => Make_append fac cd cls nm reg heap base fs1 fs2 hm hpre,
   fun f v fs2 e hfail =>
     Make_fail_at fac cd cls nm reg heap base fs1 fs2 f v e hm hpre hfail⟩

/-- C1 witness: making a `Storage` whose mapping sets the declared field `EOL`
and then the undeclared field `Ghost` commits `EOL`, stops at `Ghost`, and
reports the wrapped error. -/
theorem Make_applies_fields_in_order_witness :
    facW.Make "Storage" "Lake" emptyReg [] 0 ([("EOL", "5")] ++ ("Ghost", "7") :: []) =
      ((facW.Make "Storage" "Lake" emptyReg [] 0 [("EOL", "5")]).1,
       (facW.Make "Storage" "Lake" emptyReg [] 0 [("EOL", "5")]).2.1,
       some (.missingMember "Ghost" "Storage" (.noTypeName "Storage.Lake.Ghost"))) :=
  (Make_applies_fields_in_order facW cdStorage "Storage" "Lake" emptyReg [] 0
      [("EOL", "5")] rfl rfl).2
    "Ghost" "7" [] (.noTypeName "Storage.Lake.Ghost") rfl

/-- C6: when the field mapping names a field whose key was never declared —
after the instance-registration step (and the preceding, successfully applied
pairs, which never touch the type index) the key has no type-index entry —
the `SetString` inside `MakeObject` throws the no-typename failure and `Make`
rethrows it wrapped as a missing-member error identifying the offending
field name and class name. -/
theorem Make_missing_member (fac : ObjectFactory) (cd : ClassDef)
    (cls nm : String) (reg : ObjectRegister) (heap : Heap) (base : Nat)
    (fs1 fs2 : List (String × String)) (f v : String)
    (hm : sfind? fac.mMakers cls = some cd)
    (hpre : (fac.Make cls nm reg heap base fs1).2.2 = none)
    (hno : sfind? ((fac.Make cls nm reg heap base fs1).1).TypeNames
        (RegisterString cls nm f) = none) :
    (fac.Make cls nm reg heap base (fs1 ++ (f, v) :: fs2)).2.2 =
      some (.missingMember f cls (.noTypeName (RegisterString cls nm f))) := by
  have hfail : (((fac.Make cls nm reg heap base fs1).1).SetString
      (RegisterString cls nm f) v).2 = some (.noTypeName (RegisterString cls nm f)) := by
    simp [ObjectRegister.SetString, hno]
  rw [Make_fail_at fac cd cls nm reg heap base fs1 fs2 f v
      (.noTypeName (RegisterString cls nm f)) hm hpre hfail]

/-- C6 witness: `Storage` never declares `Ghost`, so setting it fails with the
wrapped missing-member error naming the field and the class. -/
theorem Make_missing_member_witness :
    (facW.Make "Storage" "Lake" emptyReg [] 0 ([] ++ ("Ghost", "7") :: [("EOL", "5")])).2.2 =
      some (.missingMember "Ghost" "Storage" (.noTypeName "Storage.Lake.Ghost")) :=
  Make_missing_member facW cdStorage "Storage" "Lake" emptyReg [] 0 [] [("EOL", "5")]
    "Ghost" "7" rfl rfl rfl

/-! ### Reset-pass lemmas -/

theorem resetVecLoop_frame (reg : ObjectRegister) (e : ETy) (l m : Nat)
    (hne : m ≠ l) :
    ∀ (ts : List String) (heap : Heap),
      hGet (resetVecLoop reg heap e l ts).1 m = hGet heap m := by
  intro ts
  induction ts with
  | nil => intro heap; rfl
  | cons t ts ih =>
    intro heap
    cases hc : convertElem reg e t with
    | error err => simp [resetVecLoop, hc]
    | ok v =>
      have hv : hGet (vecPush heap l v) m = hGet heap m := by
        unfold vecPush
        cases h0 : hGet heap l with
        | none => exact hGet_hSet_ne heap l m _ hne
        | some w => cases w <;> exact hGet_hSet_ne heap l m _ hne
      simp only [resetVecLoop, hc]
      rw [ih (vecPush heap l v), hv]

/-- `ResetFromString` writes (at most) through the pointer it is given. -/
theorem ResetFromString_frame (reg : ObjectRegister) (heap : Heap) (ty : Ty)
    (sv : StVal) (s : String) (m : Nat) (h : locOf sv ≠ some m) :
    hGet (ResetFromString reg heap ty sv s).1 m = hGet heap m := by
  cases ty with
  | memFn cls => rfl
  | sptrV cls =>
    cases hF : reg.FindInstance cls s with
    | ok w => simp [ResetFromString, hF]
    | error e => simp [ResetFromString, hF]
  | pInt =>
    cases sv with
    | vloc l =>
      have hlm : l ≠ m := fun he => h (by simp [locOf, he])
      cases hc : convertElem reg .eint s with
      | ok v => simp [ResetFromString, hc, hGet_hSet_ne heap l m v (Ne.symm hlm)]
      | error e => simp [ResetFromString, hc]
    | vinst c n => rfl
    | vfn c f => rfl
    | vnull => rfl
  | pBool =>
    cases sv with
    | vloc l =>
      have hlm : l ≠ m := fun he => h (by simp [locOf, he])
      cases hc : convertElem reg .ebool s with
      | ok v => simp [ResetFromString, hc, hGet_hSet_ne heap l m v (Ne.symm hlm)]
      | error e => simp [ResetFromString, hc]
    | vinst c n => rfl
    | vfn c f => rfl
    | vnull => rfl
  | pSptr cls =>
    cases sv with
    | vloc l =>
      have hlm : l ≠ m := fun he => h (by simp [locOf, he])
      cases hc : convertElem reg (.esptr cls) s with
      | ok v => simp [ResetFromString, hc, hGet_hSet_ne heap l m v (Ne.symm hlm)]
      | error e => simp [ResetFromString, hc]
    | vinst c n => rfl
    | vfn c f => rfl
    | vnull => rfl
  | pVec e =>
    cases sv with
    | vloc l =>
      have hlm : m ≠ l := fun he => h (by simp [locOf, he])
      show hGet (resetVecLoop reg (hSet heap l (.hvec [])) e l (tokenize sSeps s)).1 m
          = hGet heap m
      rw [resetVecLoop_frame reg e l m hlm (tokenize sSeps s) (hSet heap l (.hvec []))]
      exact hGet_hSet_ne heap l m _ hlm
    | vinst c n => rfl
    | vfn c f => rfl
    | vnull => rfl

/-- A successful direct conversion makes `ResetFromString` on a pointer-backed
entry exactly the corresponding heap write. -/
theorem ResetFromString_of_convert_ok (reg : ObjectRegister) (heap : Heap)
    (T : Ty) (l : Nat) (s : String) (v : HVal)
    (hptr : PtrTy T) (hconv : convertVal reg T s = .ok v) :
    ResetFromString reg heap T (.vloc l) s = (hSet heap l v, none) := by
  cases T with
  | pInt =>
    simp only [convertVal] at hconv
    simp [ResetFromString, hconv]
  | pBool =>
    simp only [convertVal] at hconv
    simp [ResetFromString, hconv]
  | pSptr cls =>
    simp only [convertVal] at hconv
    simp [ResetFromString, hconv]
  | pVec e =>
    simp only [convertVal] at hconv
    cases hall : convertAll reg e (tokenize sSeps s) with
    | error err =>
      rw [hall] at hconv
      exact absurd hconv (by simp)
    | ok vs =>
      rw [hall] at hconv
      have hv : HVal.hvec vs = v := by simpa using hconv
      subst hv
      show resetVecLoop reg (hSet heap l (.hvec [])) e l (tokenize sSeps s) = _
      rw [resetVecLoop_ok reg e l (tokenize sSeps s) vs heap [] hall]
      simp
  | sptrV cls => exact absurd hptr (by simp [PtrTy])
  | memFn cls => exact absurd hptr (by simp [PtrTy])

theorem resetEntries_const (tn : String) :
    ∀ (entries : List (String × String)) (reg : ObjectRegister) (heap : Heap)
      (rd : Register),
      sfind? reg.Registers tn = some rd →
      (∀ p ∈ entries, (sfind? rd.Data p.1).isSome = true) →
      (resetEntries tn entries reg heap).1 = reg := by
  intro entries
  induction entries with
  | nil => intro reg heap rd _ _; rfl
  | cons ks rest ih =>
    intro reg heap rd hfound hall
    obtain ⟨k, s⟩ := ks
    have hk : (sfind? rd.Data k).isSome = true := hall (k, s) (List.mem_cons_self _ _)
    cases hdk : sfind? rd.Data k with
    | none => rw [hdk] at hk; simp at hk
    | some p =>
      rcases hR : ResetFromString reg heap rd.ty p s with ⟨heap', err⟩
      cases err with
      | none =>
        have h := ih reg heap' rd hfound (fun q hq => hall q (List.mem_cons_of_mem _ hq))
        simpa [resetEntries, hfound, hdk, hR] using h
      | some e =>
        simp [resetEntries, hfound, hdk, hR]

theorem resetEntries_frame (tn : String) (m : Nat) :
    ∀ (entries : List (String × String)) (reg : ObjectRegister) (heap : Heap)
      (rd : Register),
      sfind? reg.Registers tn = some rd →
      (∀ p ∈ entries, (sfind? rd.Data p.1).isSome = true) →
      (∀ p ∈ entries, ∀ sv, sfind? rd.Data p.1 = some sv → locOf sv ≠ some m) →
      hGet (resetEntries tn entries reg heap).2.1 m = hGet heap m := by
  intro entries
  induction entries with
  | nil => intro reg heap rd _ _ _; rfl
  | cons ks rest ih =>
    intro reg heap rd hfound hall havoid
    obtain ⟨k, s⟩ := ks
    have hk : (sfind? rd.Data k).isSome = true := hall (k, s) (List.mem_cons_self _ _)
    cases hdk : sfind? rd.Data k with
    | none => rw [hdk] at hk; simp at hk
    | some p =>
      have hloc : locOf p ≠ some m :=
        havoid (k, s) (List.mem_cons_self _ _) p hdk
      have hframe0 := ResetFromString_frame reg heap rd.ty p s m hloc
      rcases hR : ResetFromString reg heap rd.ty p s with ⟨heap', err⟩
      rw [hR] at hframe0
      cases err with
      | none =>
        have h := ih reg heap' rd hfound
          (fun q hq => hall q (List.mem_cons_of_mem _ hq))
          (fun q hq => havoid q (List.mem_cons_of_mem _ hq))
        simp only [resetEntries, hfound, hdk, hR]
        rw [h, hframe0]
      | some e =>
        simp only [resetEntries, hfound, hdk, hR]
        exact hframe0

theorem resetEntries_preserve (tn : String) (T : Ty) (k s : String) (l : Nat)
    (v : HVal) :
    ∀ (entries : List (String × String)) (reg : ObjectRegister) (heap : Heap)
      (rd : Register),
      sfind? reg.Registers tn = some rd →
      rd.ty = T → PtrTy T →
      sfind? rd.Data k = some (.vloc l) →
      convertVal reg T s = .ok v →
      (∀ p ∈ entries, (sfind? rd.Data p.1).isSome = true) →
      (∀ p ∈ entries, p.1 = k → p.2 = s) →
      (∀ p ∈ entries, p.1 ≠ k → ∀ sv, sfind? rd.Data p.1 = some sv → locOf sv ≠ some l) →
      hGet heap l = some v →
      hGet (resetEntries tn entries reg heap).2.1 l = some v := by
  intro entries
  induction entries with
  | nil => intro reg heap rd _ _ _ _ _ _ _ _ hv; exact hv
  | cons ks rest ih =>
    intro reg heap rd hfound hty hptr hdk hconv hall huk hother hv
    obtain ⟨k1, s1⟩ := ks
    by_cases hk1 : k1 = k
    · subst hk1
      have hs1 : s1 = s := huk (k1, s1) (List.mem_cons_self _ _) rfl
      subst hs1
      have hstep : ResetFromString reg heap rd.ty (.vloc l) s1 = (hSet heap l v, none) := by
        rw [hty]
        exact ResetFromString_of_convert_ok reg heap T l s1 v hptr hconv
      simp only [resetEntries, hfound, hdk, hstep]
      exact ih reg (hSet heap l v) rd hfound hty hptr hdk hconv
        (fun q hq => hall q (List.mem_cons_of_mem _ hq))
        (fun q hq => huk q (List.mem_cons_of_mem _ hq))
        (fun q hq => hother q (List.mem_cons_of_mem _ hq))
        (hGet_hSet_self heap l v)
    · have hk : (sfind? rd.Data k1).isSome = true :=
        hall (k1, s1) (List.mem_cons_self _ _)
      cases hdk1 : sfind? rd.Data k1 with
      | none => rw [hdk1] at hk; simp at hk
      | some p =>
        have hloc : locOf p ≠ some l :=
          hother (k1, s1) (List.mem_cons_self _ _) hk1 p hdk1
        have hframe0 := ResetFromString_frame reg heap rd.ty p s1 l hloc
        rcases hR : ResetFromString reg heap rd.ty p s1 with ⟨heap', err⟩
        rw [hR] at hframe0
        cases err with
        | none =>
          simp only [resetEntries, hfound, hdk1, hR]
          exact ih reg heap' rd hfound hty hptr hdk hconv
            (fun q hq => hall q (List.mem_cons_of_mem _ hq))
            (fun q hq => huk q (List.mem_cons_of_mem _ hq))
            (fun q hq => hother q (List.mem_cons_of_mem _ hq))
            (by rw [hframe0]; exact hv)
        | some e =>
          simp only [resetEntries, hfound, hdk1, hR]
          rw [hframe0]
          exact hv

theorem resetEntries_hit (tn : String) (T : Ty) (k s : String) (l : Nat)
    (v : HVal) :
    ∀ (entries : List (String × String)) (reg : ObjectRegister) (heap : Heap)
      (rd : Register),
      sfind? reg.Registers tn = some rd →
      rd.ty = T → PtrTy T →
      sfind? rd.Data k = some (.vloc l) →
      convertVal reg T s = .ok v →
      (∀ p ∈ entries, (sfind? rd.Data p.1).isSome = true) →
      (∀ p ∈ entries, p.1 = k → p.2 = s) →
      (∀ p ∈ entries, p.1 ≠ k → ∀ sv, sfind? rd.Data p.1 = some sv → locOf sv ≠ some l) →
      (k, s) ∈ entries →
      (resetEntries tn entries reg heap).2.2 = none →
      hGet (resetEntries tn entries reg heap).2.1 l = some v := by
  intro entries
  induction entries with
  | nil => intro reg heap rd _ _ _ _ _ _ _ _ hmem _; simp at hmem
  | cons ks rest ih =>
    intro reg heap rd hfound hty hptr hdk hconv hall huk hother hmem hsucc
    obtain ⟨k1, s1⟩ := ks
    by_cases hk1 : k1 = k
    · subst hk1
      have hs1 : s1 = s := huk (k1, s1) (List.mem_cons_self _ _) rfl
      subst hs1
      have hstep : ResetFromString reg heap rd.ty (.vloc l) s1 = (hSet heap l v, none) := by
        rw [hty]
        exact ResetFromString_of_convert_ok reg heap T l s1 v hptr hconv
      simp only [resetEntries, hfound, hdk, hstep]
      exact resetEntries_preserve tn T k1 s1 l v rest reg (hSet heap l v) rd hfound
        hty hptr hdk hconv
        (fun q hq => hall q (List.mem_cons_of_mem _ hq))
        (fun q hq => huk q (List.mem_cons_of_mem _ hq))
        (fun q hq => hother q (List.mem_cons_of_mem _ hq))
        (hGet_hSet_self heap l v)
    · have hmem' : (k, s) ∈ rest := by
        rcases List.mem_cons.mp hmem with he | he
        · exfalso
          apply hk1
          exact (congrArg Prod.fst he).symm
        · exact he
      have hk : (sfind? rd.Data k1).isSome = true :=
        hall (k1, s1) (List.mem_cons_self _ _)
      cases hdk1 : sfind? rd.Data k1 with
      | none => rw [hdk1] at hk; simp at hk
      | some p =>
        rcases hR : ResetFromString reg heap rd.ty p s1 with ⟨heap', err⟩
        cases err with
        | none =>
          simp only [resetEntries, hfound, hdk1, hR] at hsucc ⊢
          exact ih reg heap' rd hfound hty hptr hdk hconv
            (fun q hq => hall q (List.mem_cons_of_mem _ hq))
            (fun q hq => huk q (List.mem_cons_of_mem _ hq))
            (fun q hq => hother q (List.mem_cons_of_mem _ hq))
            hmem' hsucc
        | some e =>
          exfalso
          simp [resetEntries, hfound, hdk1, hR] at hsucc

theorem resetRegisters_const :
    ∀ (names : List String) (reg : ObjectRegister) (heap : Heap),
      (∀ tn rd, sfind? reg.Registers tn = some rd →
        ∀ p ∈ rd.StringData, (sfind? rd.Data p.1).isSome = true) →
      (resetRegisters names reg heap).1 = reg := by
  intro names
  induction names with
  | nil => intro reg heap _; rfl
  | cons tn rest ih =>
    intro reg heap hsub
    cases hfound : sfind? reg.Registers tn with
    | none =>
      simp only [resetRegisters, hfound]
      exact ih reg heap hsub
    | some rd =>
      have hconst := resetEntries_const tn rd.StringData reg heap rd hfound
        (hsub tn rd hfound)
      rcases hE : resetEntries tn rd.StringData reg heap with ⟨reg', heap', err⟩
      rw [hE] at hconst
      have hregeq : reg' = reg := hconst
      rw [hregeq] at hE
      cases err with
      | none =>
        simp only [resetRegisters, hfound, hE]
        exact ih reg heap' hsub
      | some e =>
        simp only [resetRegisters, hfound, hE]

theorem resetRegisters_preserve (tnT : String) (T : Ty) (k s : String) (l : Nat)
    (v : HVal) (rdT : Register) :
    ∀ (names : List String) (reg : ObjectRegister) (heap : Heap),
      (∀ tn rd, sfind? reg.Registers tn = some rd →
        ∀ p ∈ rd.StringData, (sfind? rd.Data p.1).isSome = true) →
      (∀ tn rd, sfind? reg.Registers tn = some rd →
        ∀ q ∈ rd.Data, locOf q.2 = some l → tn = tnT ∧ q.1 = k) →
      sfind? reg.Registers tnT = some rdT →
      rdT.ty = T → PtrTy T →
      sfind? rdT.Data k = some (.vloc l) →
      (∀ p ∈ rdT.StringData, p.1 = k → p.2 = s) →
      convertVal reg T s = .ok v →
      hGet heap l = some v →
      hGet (resetRegisters names reg heap).2.1 l = some v := by
  intro names
  induction names with
  | nil => intro reg heap _ _ _ _ _ _ _ _ hv; exact hv
  | cons tn rest ih =>
    intro reg heap hsub havoid hfT hty hptr hdk huk hconv hv
    cases hfound : sfind? reg.Registers tn with
    | none =>
      simp only [resetRegisters, hfound]
      exact ih reg heap hsub havoid hfT hty hptr hdk huk hconv hv
    | some rd =>
      have hconst := resetEntries_const tn rd.StringData reg heap rd hfound
        (hsub tn rd hfound)
      by_cases htn : tn = tnT
      · have hrd : rd = rdT := by
          rw [htn, hfT] at hfound
          exact (Option.some.inj hfound).symm
        have hother : ∀ p ∈ rd.StringData, p.1 ≠ k →
            ∀ sv, sfind? rd.Data p.1 = some sv → locOf sv ≠ some l := by
          intro p _ hpk sv hsv hle
          exact hpk (havoid tn rd hfound (p.1, sv) (sfind?_some_mem hsv) hle).2
        have hpres := resetEntries_preserve tn T k s l v rd.StringData reg heap rd
          hfound (hrd ▸ hty) hptr (hrd ▸ hdk) hconv (hsub tn rd hfound)
          (hrd ▸ huk) hother hv
        rcases hE : resetEntries tn rd.StringData reg heap with ⟨reg', heap', err⟩
        rw [hE] at hconst hpres
        have hregeq : reg' = reg := hconst
        rw [hregeq] at hE
        cases err with
        | none =>
          simp only [resetRegisters, hfound, hE]
          exact ih reg heap' hsub havoid hfT hty hptr hdk huk hconv hpres
        | some e =>
          simp only [resetRegisters, hfound, hE]
          exact hpres
      · have havoidall : ∀ p ∈ rd.StringData,
            ∀ sv, sfind? rd.Data p.1 = some sv → locOf sv ≠ some l := by
          intro p _ sv hsv hle
          exact htn (havoid tn rd hfound (p.1, sv) (sfind?_some_mem hsv) hle).1
        have hframe := resetEntries_frame tn l rd.StringData reg heap rd hfound
          (hsub tn rd hfound) havoidall
        rcases hE : resetEntries tn rd.StringData reg heap with ⟨reg', heap', err⟩
        rw [hE] at hconst hframe
        have hregeq : reg' = reg := hconst
        rw [hregeq] at hE
        cases err with
        | none =>
          simp only [resetRegisters, hfound, hE]
          exact ih reg heap' hsub havoid hfT hty hptr hdk huk hconv
            (by rw [hframe]; exact hv)
        | some e =>
          simp only [resetRegisters, hfound, hE]
          rw [hframe]
          exact hv

theorem resetRegisters_hit (tnT : String) (T : Ty) (k s : String) (l : Nat)
    (v : HVal) (rdT : Register) :
    ∀ (names : List String) (reg : ObjectRegister) (heap : Heap),
      (∀ tn rd, sfind? reg.Registers tn = some rd →
        ∀ p ∈ rd.StringData, (sfind? rd.Data p.1).isSome = true) →
      (∀ tn rd, sfind? reg.Registers tn = some rd →
        ∀ q ∈ rd.Data, locOf q.2 = some l → tn = tnT ∧ q.1 = k) →
      sfind? reg.Registers tnT = some rdT →
      rdT.ty = T → PtrTy T →
      sfind? rdT.Data k = some (.vloc l) →
      (∀ p ∈ rdT.StringData, p.1 = k → p.2 = s) →
      convertVal reg T s = .ok v →
      (k, s) ∈ rdT.StringData →
      tnT ∈ names →
      (resetRegisters names reg heap).2.2 = none →
      hGet (resetRegisters names reg heap).2.1 l = some v := by
  intro names
  induction names with
  | nil => intro reg heap _ _ _ _ _ _ _ _ _ hmem _; simp at hmem
  | cons tn rest ih =>
    intro reg heap hsub havoid hfT hty hptr hdk huk hconv hmemSD hmem hsucc
    cases hfound : sfind? reg.Registers tn with
    | none =>
      have hmem' : tnT ∈ rest := by
        rcases List.mem_cons.mp hmem with he | he
        · exfalso
          rw [he, hfound] at hfT
          simp at hfT
        · exact he
      simp only [resetRegisters, hfound] at hsucc ⊢
      exact ih reg heap hsub havoid hfT hty hptr hdk huk hconv hmemSD hmem' hsucc
    | some rd =>
      have hconst := resetEntries_const tn rd.StringData reg heap rd hfound
        (hsub tn rd hfound)
      by_cases htn : tn = tnT
      · have hrd : rd = rdT := by
          rw [htn, hfT] at hfound
          exact (Option.some.inj hfound).symm
        have hother : ∀ p ∈ rd.StringData, p.1 ≠ k →
            ∀ sv, sfind? rd.Data p.1 = some sv → locOf sv ≠ some l := by
          intro p _ hpk sv hsv hle
          exact hpk (havoid tn rd hfound (p.1, sv) (sfind?_some_mem hsv) hle).2
        rcases hE : resetEntries tn rd.StringData reg heap with ⟨reg', heap', err⟩
        rw [hE] at hconst
        have hregeq : reg' = reg := hconst
        rw [hregeq] at hE
        cases err with
        | none =>
          have hhit := resetEntries_hit tn T k s l v rd.StringData reg heap rd
            hfound (hrd ▸ hty) hptr (hrd ▸ hdk) hconv (hsub tn rd hfound)
            (hrd ▸ huk) hother (hrd ▸ hmemSD) (by rw [hE])
          rw [hE] at hhit
          simp only [resetRegisters, hfound, hE]
          exact resetRegisters_preserve tnT T k s l v rdT rest reg heap' hsub havoid
            hfT hty hptr hdk huk hconv hhit
        | some e =>
          exfalso
          simp only [resetRegisters, hfound, hE] at hsucc
          exact Option.noConfusion hsucc
      · have hmem' : tnT ∈ rest := by
          rcases List.mem_cons.mp hmem with he | he
          · exact absurd he.symm htn
          · exact he
        rcases hE : resetEntries tn rd.StringData reg heap with ⟨reg', heap', err⟩
        rw [hE] at hconst
        have hregeq : reg' = reg := hconst
        rw [hregeq] at hE
        cases err with
        | none =>
          simp only [resetRegisters, hfound, hE] at hsucc ⊢
          exact ih reg heap' hsub havoid hfT hty hptr hdk huk hconv hmemSD hmem' hsucc
        | some e =>
          exfalso
          simp only [resetRegisters, hfound, hE] at hsucc
          exact Option.noConfusion hsucc

theorem SetString_effect (reg : ObjectRegister) (k s tn : String) (rd : Register)
    (htn : sfind? reg.TypeNames k = some tn)
    (hfound : sfind? reg.Registers tn = some rd) :
    reg.SetString k s =
      ({ reg with Registers := (minsert reg.Registers tn
          { rd with StringData := minsert rd.StringData k s }) }, none) := by
  simp [ObjectRegister.SetString, htn, hfound, Register.SetString]

/-- Core of the string-round-trip property, stated on the register as it
stands after `setString`: a full reset pass leaves the register unchanged,
`Get` returns the registered pointer, and the pointer's cell holds the
directly converted value. -/
theorem reset_get_core (regX : ObjectRegister) (heap : Heap) (T : Ty)
    (rdX : Register) (k s : String) (l : Nat) (v : HVal)
    (hsubX : ∀ tn rd', sfind? regX.Registers tn = some rd' →
      ∀ p ∈ rd'.StringData, (sfind? rd'.Data p.1).isSome = true)
    (havoidX : ∀ tn rd', sfind? regX.Registers tn = some rd' →
      ∀ q ∈ rd'.Data, locOf q.2 = some l → tn = tyName T ∧ q.1 = k)
    (hfoundX : sfind? regX.Registers (tyName T) = some rdX)
    (htyX : rdX.ty = T) (hptr : PtrTy T)
    (hdkX : sfind? rdX.Data k = some (.vloc l))
    (hukX : ∀ p ∈ rdX.StringData, p.1 = k → p.2 = s)
    (hmemX : (k, s) ∈ rdX.StringData)
    (hconvX : convertVal regX T s = .ok v)
    (hresetX : (regX.Reset heap).2.2 = none) :
    (regX.Reset heap).1.Get T k = .ok (.vloc l) ∧
    hGet (regX.Reset heap).2.1 l = some v := by
  have hconst := resetRegisters_const (regX.Registers.map Prod.fst) regX heap hsubX
  constructor
  · show ((resetRegisters (regX.Registers.map Prod.fst) regX heap).1).Get T k = _
    rw [hconst]
    simp [ObjectRegister.Get, hfoundX, Register.Get, hdkX]
  · have hmemN : tyName T ∈ regX.Registers.map Prod.fst :=
      List.mem_map_of_mem Prod.fst (sfind?_some_mem hfoundX)
    exact resetRegisters_hit (tyName T) T k s l v rdX
      (regX.Registers.map Prod.fst) regX heap hsubX havoidX hfoundX htyX hptr
      hdkX hukX hconvX hmemX hmemN hresetX

/-- C2 (amended): for every key `k` registered *by pointer* at type `T` — a
scalar, boolean, instance-reference or collection member field, which is how
the object contract registers fields — `setString k s` followed by a
successful `Reset` makes the typed `Get` return the same registered pointer,
whose target cell then holds exactly the value obtained by directly
converting `s` at type `T` against the same registry contents.  The original
claim, quantified over *every* key with a value of type `T`, fails for
by-value instance-handle entries, where the re-derived handle is assigned to
a discarded local copy (see the counterexample).  Hypotheses: every
remembered string has a stored entry (no null-pointer write during reset),
cell `l` is pointed at only by entry `k` of the `T` store (member cells of
distinct fields are distinct), `k` routes to `T` in the type index, the `T`
store's string keys are duplicate-free, the direct conversion of `s`
succeeds, and the reset pass reports no error. -/
theorem setString_reset_get_ptr (reg : ObjectRegister) (heap : Heap) (T : Ty)
    (rd : Register) (k s : String) (l : Nat) (v : HVal)
    (hsub : ∀ p ∈ reg.Registers, ∀ q ∈ p.2.StringData,
      (sfind? p.2.Data q.1).isSome = true)
    (havoid : ∀ p ∈ reg.Registers, ∀ q ∈ p.2.Data,
      locOf q.2 = some l → p.1 = tyName T ∧ q.1 = k)
    (hfound : sfind? reg.Registers (tyName T) = some rd)
    (hty : rd.ty = T) (hptr : PtrTy T)
    (hdk : sfind? rd.Data k = some (.vloc l))
    (htn : sfind? reg.TypeNames k = some (tyName T))
    (hnk : (rd.StringData.map Prod.fst).Nodup)
    (hconv : convertVal (reg.SetString k s).1 T s = .ok v)
    (hreset : ((reg.SetString k s).1.Reset heap).2.2 = none) :
    (reg.SetString k s).2 = none ∧
    ((reg.SetString k s).1.Reset heap).1.Get T k = .ok (.vloc l) ∧
    hGet ((reg.SetString k s).1.Reset heap).2.1 l = some v := by
  have heff := SetString_effect reg k s (tyName T) rd htn hfound
  have hmemOld : (tyName T, rd) ∈ reg.Registers := sfind?_some_mem hfound
  refine ⟨by rw [heff], ?_⟩
  have h1 : (reg.SetString k s).1 =
      { reg with Registers := (minsert reg.Registers (tyName T)
        { rd with StringData := minsert rd.StringData k s }) } := by rw [heff]
  rw [h1] at hconv hreset ⊢
  refine reset_get_core _ heap T
    ({ rd with StringData := minsert rd.StringData k s }) k s l v
    ?_ ?_ ?_ hty hptr hdk ?_ ?_ hconv hreset
  · intro tn rd' hf p hp
    rcases mem_minsert (sfind?_some_mem hf) with he | he
    · have hrd' : rd' = { rd with StringData := minsert rd.StringData k s } :=
        congrArg Prod.snd he
      rw [hrd'] at hp
      rcases mem_minsert hp with hq | hq
      · rw [hrd', hq]
        simp [hdk]
      · have h := hsub (tyName T, rd) hmemOld p hq
        rw [hrd']
        exact h
    · exact hsub (tn, rd') he p hp
  · intro tn rd' hf q hq hle
    rcases mem_minsert (sfind?_some_mem hf) with he | he
    · have htn' : tn = tyName T := congrArg Prod.fst he
      have hrd' : rd' = { rd with StringData := minsert rd.StringData k s } :=
        congrArg Prod.snd he
      rw [hrd'] at hq
      exact ⟨htn', (havoid (tyName T, rd) hmemOld q hq hle).2⟩
    · exact havoid (tn, rd') he q hq hle
  · exact sfind?_minsert_self reg.Registers (tyName T) _
  · intro p hp hpk
    have he := mem_minsert_key_eq hnk hp hpk
    rw [he]
  · exact mem_minsert_self rd.StringData k s

/-- C2 witness: an `int*` entry `k` at cell `0`; after `setString "42"` and a
reset, `Get` returns the pointer to cell `0`, which holds `42`. -/
theorem setString_reset_get_ptr_witness :
    (regW2.SetString "k" "42").2 = none ∧
    ((regW2.SetString "k" "42").1.Reset [(0, .hint 0)]).1.Get .pInt "k" = .ok (.vloc 0) ∧
    hGet ((regW2.SetString "k" "42").1.Reset [(0, .hint 0)]).2.1 0 = some (.hint 42) :=
  setString_reset_get_ptr regW2 [(0, .hint 0)] .pInt
    { ty := .pInt, Data := [("k", .vloc 0)], StringData := [] } "k" "42" 0 (.hint 42)
    (by decide) (by decide) rfl rfl trivial rfl rfl (by decide) rfl rfl

/-- C2 counterexample (the claim as stated): `Storage.Lake` is a by-value
instance handle; after `setString "Storage.Lake" "Spill"` and a successful
reset, `Get` still returns the handle to `Lake`, while directly converting
`"Spill"` (the instance-reference converter, `FindInstance`) against the
same registry yields the distinct handle to `Spill` — so the round-trip
equality fails for such an entry. -/
theorem setString_reset_get_byvalue_cex :
    (regCx.SetString "Storage.Lake" "Spill").2 = none ∧
    (((regCx.SetString "Storage.Lake" "Spill").1).Reset []).2.2 = none ∧
    (((regCx.SetString "Storage.Lake" "Spill").1).Reset []).1.Get (.sptrV "Storage")
        "Storage.Lake" = .ok (.vinst "Storage" "Lake") ∧
    ((regCx.SetString "Storage.Lake" "Spill").1).FindInstance "Storage" "Spill"
      = .ok (.vinst "Storage" "Spill") ∧
    (StVal.vinst "Storage" "Lake" ≠ StVal.vinst "Storage" "Spill") :=
  ⟨rfl, rfl, rfl, rfl, by decide⟩
